import Mathlib

/-!
Shallow embedding of `src/config-transmitters.ts` from the useeio-widgets
repository, together with proofs about the behaviour of the configuration
transmitters (`ConfigTransmitter`, `UrlConfigTransmitter`,
`HtmlAttributeConfigTransmitter`).

A `Config` is a JS object mapping string keys to values; we model it as an
association list in insertion order, which is what JS object enumeration
(`Object.keys`) and spread (`{...a, ...b}`) operate on.  `Value.undef`
models the JS `undefined` that property access returns for a missing key
(and that a property can explicitly hold), `Value.vnull` models `null`.
-/

set_option autoImplicit false

/-- Scalar configuration values: strings, numbers and booleans. -/
inductive Scalar where
  | str (s : String)
  | num (n : Int)
  | bool (b : Bool)
deriving DecidableEq, Repr

/-- Values stored in a `Config`: a scalar, an ordered sequence of scalars,
JS `null`, or JS `undefined`. -/
inductive Value where
  | undef
  | vnull
  | scalar (s : Scalar)
  | arr (l : List Scalar)
deriving DecidableEq, Repr

/-- A configuration object: string keys to values, in insertion order. -/
abbrev Config := List (String × Value)

/-- Property access `c[k]`: the value of the first entry with key `k`, or
JS `undefined` when the key is absent. -/
def idx : Config → String → Value
  | [], _ => .undef
  | (k', v') :: rest, k => if k' = k then v' else idx rest k

/-- Whether the object has an own property named `k`. -/
def hasKey : Config → String → Bool
  | [], _ => false
  | (k', _) :: rest, k => if k' = k then true else hasKey rest k

/-- The key list of a config, in insertion order (`Object.keys`). -/
def keysOf (c : Config) : List String := c.map Prod.fst

/-- Property assignment `c[k] = v`: overwrite the first entry with key `k`
in place, or append a new entry when the key is absent. -/
def setKey : Config → String → Value → Config
  | [], k, v => [(k, v)]
  | (k', v') :: rest, k, v =>
    if k' = k then (k', v) :: rest else (k', v') :: setKey rest k v

/-- JS object spread `{...a, ...b}`: start from a copy of `a` and assign
every own property of `b` in enumeration order. -/
def merge : Config → Config → Config
  | a, [] => a
  | a, kv :: rest => merge (setKey a kv.1 kv.2) rest

theorem idx_setKey (c : Config) (k k' : String) (v : Value) :
    idx (setKey c k v) k' = if k' = k then v else idx c k' := by
  induction c with
  | nil =>
    by_cases h : k' = k
    · simp [setKey, idx, h]
    · simp [setKey, idx, h, Ne.symm h]
  | cons kv rest ih =>
    obtain ⟨k₀, v₀⟩ := kv
    by_cases h : k₀ = k
    · subst h
      by_cases h' : k' = k₀
      · simp [setKey, idx, h']
      · simp [setKey, idx, h', Ne.symm h']
    · by_cases h' : k₀ = k'
      · subst h'
        simp [setKey, idx, h, Ne.symm h]
      · simp [setKey, idx, h, h', ih]

theorem hasKey_setKey (c : Config) (k k' : String) (v : Value) :
    hasKey (setKey c k v) k' = (if k' = k then true else hasKey c k') := by
  induction c with
  | nil =>
    by_cases h : k' = k
    · simp [setKey, hasKey, h]
    · simp [setKey, hasKey, h, Ne.symm h]
  | cons kv rest ih =>
    obtain ⟨k₀, v₀⟩ := kv
    by_cases h : k₀ = k
    · subst h
      by_cases h' : k' = k₀
      · simp [setKey, hasKey, h']
      · simp [setKey, hasKey, h', Ne.symm h']
    · by_cases h' : k₀ = k'
      · subst h'
        simp [setKey, hasKey, h, Ne.symm h]
      · simp [setKey, hasKey, h, h', ih]

theorem idx_of_not_hasKey (c : Config) (k : String) (h : hasKey c k = false) :
    idx c k = .undef := by
  induction c with
  | nil => rfl
  | cons kv rest ih =>
    obtain ⟨k₀, v₀⟩ := kv
    by_cases h' : k₀ = k
    · simp [hasKey, h'] at h
    · simp only [hasKey, if_neg h'] at h
      simp [idx, h', ih h]

theorem hasKey_iff_mem_keysOf (c : Config) (k : String) :
    hasKey c k = true ↔ k ∈ keysOf c := by
  induction c with
  | nil => simp [hasKey, keysOf]
  | cons kv rest ih =>
    obtain ⟨k₀, v₀⟩ := kv
    by_cases h : k₀ = k
    · subst h; simp [hasKey, keysOf]
    · simp [hasKey, keysOf, h, Ne.symm h, ih]

theorem keysOf_setKey_of_hasKey (c : Config) (k : String) (v : Value)
    (h : hasKey c k = true) : keysOf (setKey c k v) = keysOf c := by
  induction c with
  | nil => simp [hasKey] at h
  | cons kv rest ih =>
    obtain ⟨k₀, v₀⟩ := kv
    by_cases h' : k₀ = k
    · simp [setKey, h', keysOf]
    · simp only [hasKey, if_neg h'] at h
      simpa [setKey, h', keysOf] using ih h

theorem keysOf_setKey_of_not_hasKey (c : Config) (k : String) (v : Value)
    (h : hasKey c k = false) : keysOf (setKey c k v) = keysOf c ++ [k] := by
  induction c with
  | nil => simp [setKey, keysOf]
  | cons kv rest ih =>
    obtain ⟨k₀, v₀⟩ := kv
    by_cases h' : k₀ = k
    · simp [hasKey, h'] at h
    · simp only [hasKey, if_neg h'] at h
      simpa [setKey, h', keysOf] using ih h

theorem nodup_keysOf_setKey (c : Config) (k : String) (v : Value)
    (h : (keysOf c).Nodup) : (keysOf (setKey c k v)).Nodup := by
  by_cases hk : hasKey c k = true
  · rw [keysOf_setKey_of_hasKey c k v hk]; exact h
  · rw [keysOf_setKey_of_not_hasKey c k v (by simpa using hk)]
    simp only [List.nodup_append, List.nodup_cons, List.nodup_nil]
    refine ⟨h, by simp, ?_⟩
    intro x hx
    simp only [List.mem_singleton]
    intro hxk
    subst hxk
    exact hk ((hasKey_iff_mem_keysOf c x).mpr hx)

theorem hasKey_merge (a b : Config) (k : String) :
    hasKey (merge a b) k = (hasKey a k || hasKey b k) := by
  induction b generalizing a with
  | nil => simp [merge, hasKey]
  | cons kv rest ih =>
    obtain ⟨k₀, v₀⟩ := kv
    simp only [merge, ih, hasKey_setKey, hasKey]
    by_cases h : k = k₀
    · subst h; simp
    · simp [h, Ne.symm h, Bool.or_assoc]

theorem idx_merge (a b : Config) (k : String) (hb : (keysOf b).Nodup) :
    idx (merge a b) k = if hasKey b k then idx b k else idx a k := by
  induction b generalizing a with
  | nil => simp [merge, hasKey]
  | cons kv rest ih =>
    obtain ⟨k₀, v₀⟩ := kv
    simp only [keysOf, List.map_cons, List.nodup_cons] at hb
    obtain ⟨hk₀, hrest⟩ := hb
    simp only [merge]
    rw [ih (setKey a k₀ v₀) hrest]
    by_cases h : k₀ = k
    · subst h
      have hout : hasKey rest k₀ = false := by
        by_contra hc
        exact hk₀ ((hasKey_iff_mem_keysOf rest k₀).mp (by simpa using hc))
      simp [hout, hasKey, idx, idx_setKey]
    · by_cases h' : hasKey rest k
      · simp [h', hasKey, h, idx, h']
      · simp [h', hasKey, h, idx, idx_setKey, Ne.symm h]

/-- Splitting a char list at every occurrence of a separator char, keeping
empty segments, as JS `String.split` / Lean `String.splitOn` do for a
one-character separator. -/
def splitCharAux (sep : Char) : List Char → List Char → List (List Char)
  | [], acc => [acc.reverse]
  | c :: cs, acc =>
    if c = sep then acc.reverse :: splitCharAux sep cs []
    else splitCharAux sep cs (c :: acc)

/-- Splits a string at every occurrence of a one-character separator. -/
def splitChar (sep : Char) (s : String) : List String :=
  (splitCharAux sep s.toList []).map (fun l => String.mk l)

/-- Joins a list of strings with a separator between consecutive elements. -/
def joinWith (sep : String) : List String → String
  | [] => ""
  | [s] => s
  | s :: rest => s ++ sep ++ joinWith sep rest

/-- Modelled from the spec: `isNone` from `src/util/util.ts` is not among
the sources.  Section 3 of the spec treats a value as "none" when it is
empty, `null` or `undefined`. -/
def isNone : Value → Bool
  | .undef => true
  | .vnull => true
  | .scalar (.str s) => s = ""
  | _ => false

/-- Encoding of a scalar as the text that appears after `k=`. -/
def encodeScalar : Scalar → String
  | .str s => s
  | .num n => toString n
  | .bool b => if b then "true" else "false"

/-- Encoding of a config value as text; sequences become comma-joined
scalar encodings. -/
def encodeValue : Value → String
  | .scalar s => encodeScalar s
  | .arr l => joinWith "," (l.map encodeScalar)
  | .undef => ""
  | .vnull => ""

/-- Modelled from the spec: `serializeConfig` from `src/config.ts` is not
among the sources.  Section 6 gives the backing format `k=v&k=v&...`, and
the codec contract in the same section requires that encoding omits keys
that are absent from the mapping; for the round-trip law to hold, keys
holding an unset ("none") value cannot be encoded either, since decoding
never produces them. -/
def serializeConfig (c : Config) : String :=
  joinWith "&" ((c.filter (fun kv => !(isNone kv.2))).map
    (fun kv => kv.1 ++ "=" ++ encodeValue kv.2))

/-- Modelled from the spec: `parseConfig` from `src/config.ts` is not among
the sources.  Decodes `k=v&k=v&...` text into a config of string values;
per the codec contract, empty or unparseable input decodes to the empty
mapping, so segments without a key or without a `=` are dropped. -/
def parseConfig (s : String) : Config :=
  (splitChar '&' s).foldl
    (fun acc seg =>
      match splitChar '=' seg with
      | k :: v :: rest =>
        if k = "" then acc
        else setKey acc k (.scalar (.str (joinWith "=" (v :: rest))))
      | _ => acc)
    []

/-- Decoding of a possibly-`null` string, as the codec contract demands
(`decode` returns the empty mapping for `null` input). -/
def parseConfigOpt : Option String → Config
  | none => []
  | some s => parseConfig s

/-- An argument passed to `update` / `updateIfAbsent` / `withDefaults`:
either a nullish value (`null`/`undefined`), encoded text, or a config
object.  The guard `if (!input) return` in the source accepts exactly the
nullish values and the empty string as falsy; every object, including the
empty one, is truthy. -/
inductive UpdateInput where
  | nullInput
  | text (s : String)
  | conf (c : Config)
deriving DecidableEq, Repr

/-- Whether the JS guard `if (!input)` fires for this input. -/
def inputIsEmpty : UpdateInput → Bool
  | .nullInput => true
  | .text s => s = ""
  | .conf _ => false

/-- The config a non-guarded input denotes: text is decoded with
`parseConfig`; a nullish input spreads to nothing (`{...c, ...null}` is
`{...c}`), which only matters for the unguarded attribute variant. -/
def inputConfig : UpdateInput → Config
  | .nullInput => []
  | .text s => parseConfig s
  | .conf c => c

/-- Observable effects of a transmitter operation: an `update` call
delivered to a joined widget, or a write of the watched host-element
attribute. -/
inductive Event where
  | widgetUpdate (w : Nat) (c : Config)
  | attrWrite (s : String)
deriving DecidableEq, Repr

/-- State of the shared broadcaster (the abstract `ConfigTransmitter`
class): the ordered registry of joined widgets (identified by numbers),
the explicit config, and the optional default config (`undefined` until
`withDefaults` runs). -/
structure ConfigTransmitter where
  widgets : List Nat
  config : Config
  defaultConfig : Option Config
deriving DecidableEq, Repr

/-- `ConfigTransmitter.get`: a copy of the current configuration including
possible default values, `!defaultConfig ? {...config} :
{...defaultConfig, ...config}`. -/
def ConfigTransmitter.get (t : ConfigTransmitter) : Config :=
  match t.defaultConfig with
  | none => t.config
  | some d => merge d t.config

/-- `ConfigTransmitter.withDefaults`: no-op on falsy input, otherwise
stores the (possibly decoded) config as the default config. -/
def ConfigTransmitter.withDefaults (t : ConfigTransmitter)
    (input : UpdateInput) : ConfigTransmitter :=
  if inputIsEmpty input then t
  else { t with defaultConfig := some (inputConfig input) }

/-- `ConfigTransmitter.join`: no-op on a nullish widget; otherwise pushes
the widget onto the registry, delivers the current `get()` snapshot to it,
and registers the `onChanged` listener (see `notifyChanged`). -/
def ConfigTransmitter.join (t : ConfigTransmitter) (w : Option Nat) :
    ConfigTransmitter × List Event :=
  match w with
  | none => (t, [])
  | some w =>
    ({ t with widgets := t.widgets ++ [w] },
     [.widgetUpdate w (ConfigTransmitter.get t)])

/-- `ConfigTransmitter.update`: no-op on falsy input; otherwise merges the
change over `get()`, stores the merged config as the new explicit config,
and delivers it to every joined widget in join order. -/
def ConfigTransmitter.update (t : ConfigTransmitter) (input : UpdateInput) :
    ConfigTransmitter × List Event :=
  if inputIsEmpty input then (t, [])
  else
    let change := inputConfig input
    let newConfig := merge (ConfigTransmitter.get t) change
    ({ t with config := newConfig },
     t.widgets.map (fun w => .widgetUpdate w newConfig))

/-- The listener that `join` registers on a widget is
`change => this.update(change)`; a change notification from a joined
widget is therefore forwarded into `update`, and a notification from a
widget that never joined reaches no listener. -/
def ConfigTransmitter.notifyChanged (t : ConfigTransmitter) (w : Nat)
    (change : UpdateInput) : ConfigTransmitter × List Event :=
  if w ∈ t.widgets then ConfigTransmitter.update t change else (t, [])

/-- The loop body of `updateIfAbsent`: walks the keys of the change in
enumeration order, copying a key into the working snapshot when its update
value is not none and its current value is none, and tracking whether
anything was staged. -/
def stage : List (String × Value) → Config → Bool → Config × Bool
  | [], cur, flag => (cur, flag)
  | (k, v) :: rest, cur, flag =>
    if isNone v then stage rest cur flag
    else if isNone (idx cur k) then stage rest (setKey cur k v) true
    else stage rest cur flag

/-- `ConfigTransmitter.updateIfAbsent`: no-op on falsy input; stages the
absent keys of the change into a working copy of `get()` and calls
`update` once if and only if at least one key was staged. -/
def ConfigTransmitter.updateIfAbsent (t : ConfigTransmitter)
    (input : UpdateInput) : ConfigTransmitter × List Event :=
  if inputIsEmpty input then (t, [])
  else
    let res := stage (inputConfig input) (ConfigTransmitter.get t) false
    if res.2 then ConfigTransmitter.update t (.conf res.1) else (t, [])

/-- The `isEqual` test inside `serialize`: `===`, except that two arrays
compare equal when they have the same length and every element of the
first occurs in the second.  (JS `===` on two distinct array objects is
false, which then falls into the array branch; on the same array object it
is true, and the array branch would also be true.) -/
def isEqualV (v1 v2 : Value) : Bool :=
  match v1, v2 with
  | .arr a1, .arr a2 => a1.length = a2.length && a1.all (fun e => a2.contains e)
  | _, _ => v1 = v2

/-- The `nonDefaults` loop of `serialize`: walks the concatenated key
lists of the default and explicit configs and assigns
`nonDefaults[key] = config[key]` for every key whose explicit value is not
`isEqual` to its default value. -/
def nonDefaultsAux (dc c : Config) : List String → Config → Config
  | [], acc => acc
  | k :: rest, acc =>
    if isEqualV (idx dc k) (idx c k) then nonDefaultsAux dc c rest acc
    else nonDefaultsAux dc c rest (setKey acc k (idx c k))

/-- The config that `serialize` hands to the codec when a default config
is set. -/
def serializeNonDefaults (dc c : Config) : Config :=
  nonDefaultsAux dc c (keysOf dc ++ keysOf c) []

/-- `ConfigTransmitter.serialize`: encode the explicit config directly
when no default config is set; otherwise encode only the entries whose
value differs from the default value.  (The `if (!this.config)` guard of
the source never fires: the explicit config starts as `{}` and is only
ever replaced by object spreads, and every JS object is truthy.) -/
def ConfigTransmitter.serialize (t : ConfigTransmitter) : String :=
  match t.defaultConfig with
  | none => serializeConfig t.config
  | some dc => serializeConfig (serializeNonDefaults dc t.config)

/-- Whether a char list starts with the given char list. -/
def startsWithL : List Char → List Char → Bool
  | _, [] => true
  | [], _ :: _ => false
  | c :: cs, d :: ds => c = d && startsWithL cs ds

/-- Whether a char list contains the given char list as a contiguous
subsequence. -/
def containsSeq : List Char → List Char → Bool
  | [], sub => sub.isEmpty
  | c :: cs, sub => startsWithL (c :: cs) sub || containsSeq cs sub

/-- JS `String.prototype.includes`. -/
def includes (s sub : String) : Bool := containsSeq s.toList sub.toList

/-- The regex search `hash.match(/state=([^&#+]+)/)`: scan left to right
for an occurrence of `state=` followed by at least one character other
than `&`, `#` and `+`; the capture is the maximal run of such characters. -/
def findState : List Char → Option String
  | [] => none
  | c :: cs =>
    if startsWithL (c :: cs) "state=".toList then
      let run := ((c :: cs).drop 6).takeWhile
        (fun ch => ch != '&' && ch != '#' && ch != '+')
      if run.isEmpty then findState cs else some (String.mk run)
    else findState cs

/-- `UrlConfigTransmitter.getStateFromHash`: the lock token in a hash
string, if any. -/
def getStateFromHash (hash : String) : Option String := findState hash.toList

/-- `UrlConfigTransmitter.getHashPart`: the part after the last `#`, or
null when the URL is falsy or contains no `#`. -/
def getHashPart (url : String) : Option String :=
  if url = "" then none
  else
    let parts := splitChar '#' url
    if parts.length < 2 then none else some (parts.getLastD "")

/-- `UrlConfigTransmitter.getParameterPart`: the query part of the URL
(after `?` of the segment before the last `#`), or null when absent. -/
def getParameterPart (url : String) : Option String :=
  if url = "" then none
  else
    let parts := splitChar '#' url
    let part := if parts.length > 1 then parts.getD (parts.length - 2) "" else url
    let parts2 := splitChar '?' part
    if parts2.length < 2 then none else some (parts2.getD 1 "")

/-- Modelled from the spec: the browser's `window.location.hash` for a
given `window.location.href` — empty when the location has no fragment,
otherwise `#` followed by the fragment. -/
def locationHash (href : String) : String :=
  match splitChar '#' href with
  | [] => ""
  | [_] => ""
  | _ :: rest => "#" ++ joinWith "#" rest

/-- `UrlConfigTransmitter.parseUrlConfig`: query parameters overlaid by
hash parameters (`{...{}, ...otherParams, ...hashParams}`). -/
def parseUrlConfig (href : String) : Config :=
  merge (merge [] (parseConfigOpt (getParameterPart href)))
    (parseConfigOpt (getHashPart href))

/-- State of the URL-backed transmitter: the shared broadcaster state plus
the initial hash and the optional lock token extracted from it. -/
structure UrlConfigTransmitter where
  base : ConfigTransmitter
  initialHash : String
  stateValue : Option String
deriving DecidableEq, Repr

/-- The `UrlConfigTransmitter` constructor for a page whose location is
`href`: stores the initial hash and its lock token, parses the location
into the explicit config, and injects the token under the reserved
`state` key when present. -/
def mkUrlConfigTransmitter (href : String) : UrlConfigTransmitter :=
  let hash := locationHash href
  let stateValue := getStateFromHash hash
  let config0 := parseUrlConfig href
  let config :=
    match stateValue with
    | some s => setKey config0 "state" (.scalar (.str s))
    | none => config0
  { base := { widgets := [], config := config, defaultConfig := none },
    initialHash := hash, stateValue := stateValue }

/-- `UrlConfigTransmitter.update`: a no-op while a state parameter is
present (Locked mode), otherwise the shared broadcaster `update`. -/
def UrlConfigTransmitter.update (u : UrlConfigTransmitter)
    (input : UpdateInput) : UrlConfigTransmitter × List Event :=
  match u.stateValue with
  | some _ => (u, [])
  | none =>
    let r := ConfigTransmitter.update u.base input
    ({ u with base := r.1 }, r.2)

/-- `UrlConfigTransmitter.serialize`: exactly `state=<token>` while
Locked, otherwise the shared broadcaster `serialize`. -/
def UrlConfigTransmitter.serialize (u : UrlConfigTransmitter) : String :=
  match u.stateValue with
  | some s => "state=" ++ s
  | none => ConfigTransmitter.serialize u.base

/-- The inherited `get`. -/
def UrlConfigTransmitter.get (u : UrlConfigTransmitter) : Config :=
  ConfigTransmitter.get u.base

/-- The inherited `join` (it calls no overridden method). -/
def UrlConfigTransmitter.join (u : UrlConfigTransmitter) (w : Option Nat) :
    UrlConfigTransmitter × List Event :=
  let r := ConfigTransmitter.join u.base w
  ({ u with base := r.1 }, r.2)

/-- The inherited `withDefaults`. -/
def UrlConfigTransmitter.withDefaults (u : UrlConfigTransmitter)
    (input : UpdateInput) : UrlConfigTransmitter :=
  { u with base := ConfigTransmitter.withDefaults u.base input }

/-- The inherited `updateIfAbsent`; its final `this.update(current)` call
dispatches to the overridden `UrlConfigTransmitter.update`. -/
def UrlConfigTransmitter.updateIfAbsent (u : UrlConfigTransmitter)
    (input : UpdateInput) : UrlConfigTransmitter × List Event :=
  if inputIsEmpty input then (u, [])
  else
    let res := stage (inputConfig input) (ConfigTransmitter.get u.base) false
    if res.2 then UrlConfigTransmitter.update u (.conf res.1) else (u, [])

/-- The string whose absence from a new hash makes the `hashchange`
listener veto the change: the JS template `` `state=${this.stateValue}` ``
(which renders `null` as the text `null` when no token is present). -/
def stateMarker (u : UrlConfigTransmitter) : String :=
  "state=" ++ (match u.stateValue with | some s => s | none => "null")

/-- The externally visible hash after a `hashchange` event that tried to
move the location from `oldHash` to `newHash`.  The listener from the
constructor suppresses the change (`preventDefault`/`stopPropagation`)
whenever the new hash does not contain `state=<token>`; the suppression
capability of the change source is modelled from the spec, which grants
the address-state `ChangeSource` "the ability to veto/cancel a pending
change", forcing the visible location back to the old one. -/
def applyHashChange (u : UrlConfigTransmitter) (oldHash newHash : String) :
    String :=
  if includes newHash (stateMarker u) then newHash else oldHash

/-- An operation a client can perform on a `UrlConfigTransmitter` during
its lifetime. -/
inductive UrlOp where
  | update (input : UpdateInput)
  | updateIfAbsent (input : UpdateInput)
  | join (w : Option Nat)
  | withDefaults (input : UpdateInput)
deriving DecidableEq, Repr

/-- Running one lifetime operation, discarding the emitted events. -/
def UrlConfigTransmitter.step (u : UrlConfigTransmitter) :
    UrlOp → UrlConfigTransmitter
  | .update input => (UrlConfigTransmitter.update u input).1
  | .updateIfAbsent input => (UrlConfigTransmitter.updateIfAbsent u input).1
  | .join w => (UrlConfigTransmitter.join u w).1
  | .withDefaults input => UrlConfigTransmitter.withDefaults u input

/-- Running a whole lifetime of operations. -/
def UrlConfigTransmitter.runOps (u : UrlConfigTransmitter)
    (ops : List UrlOp) : UrlConfigTransmitter :=
  ops.foldl UrlConfigTransmitter.step u

/-- State of the attribute-backed transmitter: the shared broadcaster
state, whether `document.querySelector` resolved the host element, and the
current value of the watched attribute (null when absent). -/
structure HtmlAttributeConfigTransmitter where
  base : ConfigTransmitter
  resolved : Bool
  attrVal : Option String
deriving DecidableEq, Repr

/-- The `HtmlAttributeConfigTransmitter` constructor: when the element
resolved and its attribute holds a truthy value, seed the explicit config
by decoding it. -/
def mkHtmlAttributeConfigTransmitter (resolved : Bool)
    (attrVal : Option String) : HtmlAttributeConfigTransmitter :=
  let config :=
    if resolved then
      match attrVal with
      | some s => if s = "" then [] else parseConfig s
      | none => []
    else []
  { base := { widgets := [], config := config, defaultConfig := none },
    resolved := resolved, attrVal := attrVal }

/-- The inherited `get`. -/
def HtmlAttributeConfigTransmitter.get
    (h : HtmlAttributeConfigTransmitter) : Config :=
  ConfigTransmitter.get h.base

/-- The inherited `serialize`. -/
def HtmlAttributeConfigTransmitter.serialize
    (h : HtmlAttributeConfigTransmitter) : String :=
  ConfigTransmitter.serialize h.base

/-- `HtmlAttributeConfigTransmitter.update`: with no resolved element this
is the shared broadcaster `update`; otherwise the (unguarded) patch is
merged into the explicit config, the new state is serialized, and the
attribute is written back only when the text differs from its current
value. -/
def HtmlAttributeConfigTransmitter.update
    (h : HtmlAttributeConfigTransmitter) (input : UpdateInput) :
    HtmlAttributeConfigTransmitter × List Event :=
  if h.resolved then
    let patch := inputConfig input
    let newBase := { h.base with config := merge h.base.config patch }
    let nextVal := ConfigTransmitter.serialize newBase
    if h.attrVal = some nextVal then ({ h with base := newBase }, [])
    else ({ h with base := newBase, attrVal := some nextVal },
      [.attrWrite nextVal])
  else
    let r := ConfigTransmitter.update h.base input
    ({ h with base := r.1 }, r.2)

/-- The `MutationObserver` callback for a mutation of the watched
attribute, whose value is now `newVal`: decode it into the explicit
config and fan the merged snapshot out to every joined widget. -/
def HtmlAttributeConfigTransmitter.onAttributeChanged
    (h : HtmlAttributeConfigTransmitter) (newVal : Option String) :
    HtmlAttributeConfigTransmitter × List Event :=
  let newBase := { h.base with config := parseConfigOpt newVal }
  ({ h with base := newBase, attrVal := newVal },
   newBase.widgets.map
     (fun w => .widgetUpdate w (ConfigTransmitter.get newBase)))

theorem count_map_widgetUpdate (l : List Nat) (M : Config) (w : Nat) :
    (l.map (fun x => Event.widgetUpdate x M)).count (Event.widgetUpdate w M) =
      l.count w := by
  have hinj : Function.Injective (fun x => Event.widgetUpdate x M) := by
    intro a b hab
    simpa using hab
  exact List.count_map_of_injective l (fun x => Event.widgetUpdate x M) hinj w

/-- C1: for every transmitter variant (the URL and attribute variants
inherit `get` from the shared broadcaster), `get()` with a default config
`D` and explicit config `C` yields `D` overlaid by `C`, `C` winning on
every shared key; without a default config it yields exactly the explicit
config.  `get` is a pure function of the transmitter state in this
embedding, so it has no side effects. -/
theorem C1_get_overlay (ws : List Nat) (C D : Config)
    (hC : (keysOf C).Nodup) :
    (∀ k, idx (ConfigTransmitter.get ⟨ws, C, some D⟩) k =
        if hasKey C k then idx C k else idx D k) ∧
    ConfigTransmitter.get ⟨ws, C, none⟩ = C ∧
    (∀ u : UrlConfigTransmitter,
      UrlConfigTransmitter.get u = ConfigTransmitter.get u.base) ∧
    (∀ h : HtmlAttributeConfigTransmitter,
      HtmlAttributeConfigTransmitter.get h = ConfigTransmitter.get h.base) := by
  refine ⟨fun k => ?_, rfl, fun _ => rfl, fun _ => rfl⟩
  exact idx_merge D C k hC

/-- Witness for `C1_get_overlay` at a concrete transmitter. -/
theorem C1_get_overlay_witness :
    (keysOf [("a", Value.scalar (.str "1")), ("b", Value.scalar (.num 2))]).Nodup ∧
    ((∀ k, idx (ConfigTransmitter.get ⟨[5],
        [("a", Value.scalar (.str "1")), ("b", Value.scalar (.num 2))],
        some [("a", Value.scalar (.str "0")), ("c", Value.vnull)]⟩) k =
        if hasKey [("a", Value.scalar (.str "1")), ("b", Value.scalar (.num 2))] k
        then idx [("a", Value.scalar (.str "1")), ("b", Value.scalar (.num 2))] k
        else idx [("a", Value.scalar (.str "0")), ("c", Value.vnull)] k) ∧
      ConfigTransmitter.get ⟨[5],
        [("a", Value.scalar (.str "1")), ("b", Value.scalar (.num 2))], none⟩ =
        [("a", Value.scalar (.str "1")), ("b", Value.scalar (.num 2))] ∧
      (∀ u : UrlConfigTransmitter,
        UrlConfigTransmitter.get u = ConfigTransmitter.get u.base) ∧
      (∀ h : HtmlAttributeConfigTransmitter,
        HtmlAttributeConfigTransmitter.get h = ConfigTransmitter.get h.base)) :=
  ⟨by decide,
   C1_get_overlay [5]
     [("a", Value.scalar (.str "1")), ("b", Value.scalar (.num 2))]
     [("a", Value.scalar (.str "0")), ("c", Value.vnull)] (by decide)⟩

/-- C2: on the shared broadcaster, `update` with a non-empty config change
merges the change over `get()`, stores the merged config, and delivers it
to every registry entry in join order; with a duplicate-free registry
every joined widget receives exactly one `update` call, and a change
notification from any joined widget (the originator included) is exactly
this `update`. -/
theorem C2_update_fanout (t : ConfigTransmitter) (Δ : Config) (_hne : Δ ≠ [])
    (hw : t.widgets.Nodup) :
    ConfigTransmitter.update t (.conf Δ) =
      ({ t with config := merge (ConfigTransmitter.get t) Δ },
       t.widgets.map
         (fun w => .widgetUpdate w (merge (ConfigTransmitter.get t) Δ))) ∧
    (∀ w ∈ t.widgets,
      (ConfigTransmitter.update t (.conf Δ)).2.count
        (.widgetUpdate w (merge (ConfigTransmitter.get t) Δ)) = 1) ∧
    (∀ w ∈ t.widgets,
      ConfigTransmitter.notifyChanged t w (.conf Δ) =
        ConfigTransmitter.update t (.conf Δ)) := by
  refine ⟨rfl, fun w hwmem => ?_, fun w hwmem => ?_⟩
  · show (t.widgets.map
      (fun x => Event.widgetUpdate x (merge (ConfigTransmitter.get t) Δ))).count
        (Event.widgetUpdate w (merge (ConfigTransmitter.get t) Δ)) = 1
    rw [count_map_widgetUpdate]
    exact List.count_eq_one_of_mem hw hwmem
  · simp [ConfigTransmitter.notifyChanged, hwmem]

/-- Witness for `C2_update_fanout` at a concrete transmitter and change. -/
theorem C2_update_fanout_witness :
    ([("x", Value.scalar (.num 1))] ≠ ([] : Config) ∧ [1, 2].Nodup) ∧
    (ConfigTransmitter.update ⟨[1, 2], [("y", Value.scalar (.str "a"))], none⟩
        (.conf [("x", Value.scalar (.num 1))]) =
      ({ widgets := [1, 2],
         config := merge
           (ConfigTransmitter.get ⟨[1, 2], [("y", Value.scalar (.str "a"))], none⟩)
           [("x", Value.scalar (.num 1))],
         defaultConfig := none },
       [1, 2].map (fun w => .widgetUpdate w (merge
         (ConfigTransmitter.get ⟨[1, 2], [("y", Value.scalar (.str "a"))], none⟩)
         [("x", Value.scalar (.num 1))]))) ∧
     (∀ w ∈ [1, 2],
       (ConfigTransmitter.update ⟨[1, 2], [("y", Value.scalar (.str "a"))], none⟩
         (.conf [("x", Value.scalar (.num 1))])).2.count
         (.widgetUpdate w (merge
           (ConfigTransmitter.get ⟨[1, 2], [("y", Value.scalar (.str "a"))], none⟩)
           [("x", Value.scalar (.num 1))])) = 1) ∧
     (∀ w ∈ [1, 2],
       ConfigTransmitter.notifyChanged
         ⟨[1, 2], [("y", Value.scalar (.str "a"))], none⟩ w
         (.conf [("x", Value.scalar (.num 1))]) =
       ConfigTransmitter.update ⟨[1, 2], [("y", Value.scalar (.str "a"))], none⟩
         (.conf [("x", Value.scalar (.num 1))]))) :=
  ⟨⟨by decide, by decide⟩,
   C2_update_fanout ⟨[1, 2], [("y", Value.scalar (.str "a"))], none⟩
     [("x", Value.scalar (.num 1))] (by decide) (by decide)⟩

/-- C7: `join` with a non-null widget appends it to the registry and
synchronously delivers exactly one `update` call carrying the current
`get()` snapshot (the only effect of `join`); afterwards a change
notification from that widget is forwarded into the transmitter's
`update`; `join(null)` leaves everything unchanged. -/
theorem C7_join (t : ConfigTransmitter) (w : Nat) :
    ConfigTransmitter.join t (some w) =
      ({ t with widgets := t.widgets ++ [w] },
       [.widgetUpdate w (ConfigTransmitter.get t)]) ∧
    ConfigTransmitter.join t none = (t, []) ∧
    (∀ input, ConfigTransmitter.notifyChanged
        (ConfigTransmitter.join t (some w)).1 w input =
      ConfigTransmitter.update (ConfigTransmitter.join t (some w)).1 input) := by
  refine ⟨rfl, rfl, fun input => ?_⟩
  simp [ConfigTransmitter.notifyChanged, ConfigTransmitter.join]

/-- C8 fails as stated: the guard `if (!input) return` lets an empty
config object through (every JS object is truthy), so on the shared
broadcaster `update({})` re-stores `get()` and fans out to the joined
widgets.  Here widget `7` receives an `update` call although the input
was the empty config mapping. -/
theorem C8_counterexample :
    (ConfigTransmitter.update
      { widgets := [7], config := [("a", Value.scalar (.num 1))],
        defaultConfig := none }
      (.conf [])).2 = [.widgetUpdate 7 [("a", Value.scalar (.num 1))]] ∧
    (ConfigTransmitter.update
      { widgets := [7], config := [("a", Value.scalar (.num 1))],
        defaultConfig := none }
      (.conf [])).2 ≠ [] := by
  constructor
  · rfl
  · decide

/-- C8 amended: on every transmitter variant, `update` with `null`,
`undefined` or the empty string leaves the explicit config unchanged and
delivers no widget update; an empty config mapping, however, is truthy
and is not guarded: the shared broadcaster stores `get()` as the new
explicit config and fans it out to every joined widget. -/
theorem C8_amended :
    (∀ t : ConfigTransmitter,
      ConfigTransmitter.update t .nullInput = (t, []) ∧
      ConfigTransmitter.update t (.text "") = (t, [])) ∧
    (∀ u : UrlConfigTransmitter,
      UrlConfigTransmitter.update u .nullInput = (u, []) ∧
      UrlConfigTransmitter.update u (.text "") = (u, [])) ∧
    (∀ h : HtmlAttributeConfigTransmitter,
      (HtmlAttributeConfigTransmitter.update h .nullInput).1.base.config =
        h.base.config ∧
      (HtmlAttributeConfigTransmitter.update h (.text "")).1.base.config =
        h.base.config ∧
      (∀ w c, Event.widgetUpdate w c ∉
        (HtmlAttributeConfigTransmitter.update h .nullInput).2) ∧
      (∀ w c, Event.widgetUpdate w c ∉
        (HtmlAttributeConfigTransmitter.update h (.text "")).2)) ∧
    (∀ t : ConfigTransmitter,
      ConfigTransmitter.update t (.conf []) =
        ({ t with config := ConfigTransmitter.get t },
         t.widgets.map (fun w => .widgetUpdate w (ConfigTransmitter.get t)))) := by
  refine ⟨fun t => ⟨rfl, rfl⟩, fun u => ?_, fun h => ?_, fun t => rfl⟩
  · obtain ⟨base, ih, sv⟩ := u
    cases sv with
    | some s => exact ⟨rfl, rfl⟩
    | none => exact ⟨rfl, rfl⟩
  · obtain ⟨base, res, av⟩ := h
    cases res with
    | false =>
      exact ⟨rfl, rfl, fun w c => List.not_mem_nil _,
        fun w c => List.not_mem_nil _⟩
    | true =>
      refine ⟨?_, ?_, fun w c => ?_, fun w c => ?_⟩ <;>
        · simp only [HtmlAttributeConfigTransmitter.update, if_true]
          first
          | (split <;> rfl)
          | (split <;> simp)

/-- C10: when a default config is set, `update` with non-empty input
stores the defaults-merged snapshot `{...get(), ...change}` as the new
explicit config, so afterwards every key of the default config is present
in the stored explicit config. -/
theorem C10_update_bakes_defaults (t : ConfigTransmitter) (D : Config)
    (input : UpdateInput) (hD : t.defaultConfig = some D)
    (hne : inputIsEmpty input = false) :
    (ConfigTransmitter.update t input).1.config =
      merge (ConfigTransmitter.get t) (inputConfig input) ∧
    ∀ k, hasKey D k = true →
      hasKey (ConfigTransmitter.update t input).1.config k = true := by
  constructor
  · simp [ConfigTransmitter.update, hne]
  · intro k hk
    simp [ConfigTransmitter.update, hne, hasKey_merge,
      ConfigTransmitter.get, hD, hk]

/-- Witness for `C10_update_bakes_defaults`: the default key `b` ends up
in the stored explicit config although the change only mentions `x`. -/
theorem C10_update_bakes_defaults_witness :
    ((ConfigTransmitter.mk [] [("a", Value.scalar (.num 1))]
        (some [("b", Value.scalar (.str "kg"))])).defaultConfig =
      some [("b", Value.scalar (.str "kg"))] ∧
     inputIsEmpty (.conf [("x", Value.scalar (.num 2))]) = false) ∧
    ((ConfigTransmitter.update
        (ConfigTransmitter.mk [] [("a", Value.scalar (.num 1))]
          (some [("b", Value.scalar (.str "kg"))]))
        (.conf [("x", Value.scalar (.num 2))])).1.config =
      merge
        (ConfigTransmitter.get
          (ConfigTransmitter.mk [] [("a", Value.scalar (.num 1))]
            (some [("b", Value.scalar (.str "kg"))])))
        (inputConfig (.conf [("x", Value.scalar (.num 2))])) ∧
     ∀ k, hasKey [("b", Value.scalar (.str "kg"))] k = true →
       hasKey (ConfigTransmitter.update
         (ConfigTransmitter.mk [] [("a", Value.scalar (.num 1))]
           (some [("b", Value.scalar (.str "kg"))]))
         (.conf [("x", Value.scalar (.num 2))])).1.config k = true) :=
  ⟨⟨rfl, rfl⟩,
   C10_update_bakes_defaults
     (ConfigTransmitter.mk [] [("a", Value.scalar (.num 1))]
       (some [("b", Value.scalar (.str "kg"))]))
     [("b", Value.scalar (.str "kg"))]
     (.conf [("x", Value.scalar (.num 2))]) rfl rfl⟩

theorem url_step_locked (u : UrlConfigTransmitter) (tok : String)
    (hlock : u.stateValue = some tok) (op : UrlOp) :
    (u.step op).stateValue = some tok ∧
    (u.step op).base.config = u.base.config := by
  obtain ⟨base, ih, sv⟩ := u
  simp only at hlock
  subst hlock
  cases op with
  | update input => exact ⟨rfl, rfl⟩
  | updateIfAbsent input =>
    simp only [UrlConfigTransmitter.step, UrlConfigTransmitter.updateIfAbsent,
      UrlConfigTransmitter.update]
    split
    · exact ⟨rfl, rfl⟩
    · split <;> exact ⟨rfl, rfl⟩
  | join w =>
    cases w with
    | none => exact ⟨rfl, rfl⟩
    | some w => exact ⟨rfl, rfl⟩
  | withDefaults input =>
    simp only [UrlConfigTransmitter.step, UrlConfigTransmitter.withDefaults,
      ConfigTransmitter.withDefaults]
    split <;> constructor <;> first | rfl | trivial

theorem url_runOps_locked (ops : List UrlOp) (u : UrlConfigTransmitter)
    (tok : String) (hlock : u.stateValue = some tok) :
    (u.runOps ops).stateValue = some tok ∧
    (u.runOps ops).base.config = u.base.config := by
  induction ops generalizing u with
  | nil => exact ⟨hlock, rfl⟩
  | cons op rest ihop =>
    obtain ⟨h1, h2⟩ := url_step_locked u tok hlock op
    obtain ⟨h3, h4⟩ := ihop (u.step op) h1
    exact ⟨h3, h4.trans h2⟩

/-- C3: a URL transmitter whose initial hash carries a `state=<token>`
lock is Locked from construction on: through any sequence of lifetime
operations (updates, conditional updates, joins, setting defaults) the
token stays in place and the explicit config never changes, and
`serialize()` always returns exactly `state=<token>`, regardless of
defaults or prior explicit values. -/
theorem C3_locked_lifetime (u : UrlConfigTransmitter) (tok : String)
    (ops : List UrlOp) (hlock : u.stateValue = some tok) :
    (u.runOps ops).stateValue = some tok ∧
    (u.runOps ops).base.config = u.base.config ∧
    UrlConfigTransmitter.serialize (u.runOps ops) = "state=" ++ tok ∧
    (∀ href, getStateFromHash (locationHash href) = some tok →
      (mkUrlConfigTransmitter href).stateValue = some tok) := by
  obtain ⟨h1, h2⟩ := url_runOps_locked ops u tok hlock
  refine ⟨h1, h2, ?_, ?_⟩
  · simp [UrlConfigTransmitter.serialize, h1]
  · intro href hhref
    simp [mkUrlConfigTransmitter, hhref]

/-- Witness for `C3_locked_lifetime`: the transmitter built from
`#state=abc123` stays Locked through an update, a default overlay and a
join, its explicit config never changes, and it serializes to exactly
`state=abc123`. -/
theorem C3_locked_lifetime_witness :
    (mkUrlConfigTransmitter "https://x/page?q=1#state=abc123").stateValue =
      some "abc123" ∧
    (((mkUrlConfigTransmitter "https://x/page?q=1#state=abc123").runOps
        [.update (.conf [("x", Value.scalar (.num 1))]),
         .withDefaults (.conf [("y", Value.scalar (.num 2))]),
         .join (some 0),
         .updateIfAbsent (.conf [("z", Value.scalar (.num 3))])]).stateValue =
      some "abc123" ∧
     ((mkUrlConfigTransmitter "https://x/page?q=1#state=abc123").runOps
        [.update (.conf [("x", Value.scalar (.num 1))]),
         .withDefaults (.conf [("y", Value.scalar (.num 2))]),
         .join (some 0),
         .updateIfAbsent (.conf [("z", Value.scalar (.num 3))])]).base.config =
      (mkUrlConfigTransmitter "https://x/page?q=1#state=abc123").base.config ∧
     UrlConfigTransmitter.serialize
       ((mkUrlConfigTransmitter "https://x/page?q=1#state=abc123").runOps
         [.update (.conf [("x", Value.scalar (.num 1))]),
          .withDefaults (.conf [("y", Value.scalar (.num 2))]),
          .join (some 0),
          .updateIfAbsent (.conf [("z", Value.scalar (.num 3))])]) =
       "state=" ++ "abc123" ∧
     (∀ href, getStateFromHash (locationHash href) = some "abc123" →
       (mkUrlConfigTransmitter href).stateValue = some "abc123")) :=
  ⟨by decide,
   C3_locked_lifetime (mkUrlConfigTransmitter "https://x/page?q=1#state=abc123")
     "abc123"
     [.update (.conf [("x", Value.scalar (.num 1))]),
      .withDefaults (.conf [("y", Value.scalar (.num 2))]),
      .join (some 0),
      .updateIfAbsent (.conf [("z", Value.scalar (.num 3))])]
     (by decide)⟩

/-- C4: while Locked on `<token>`, an external hash change to a hash that
no longer contains `state=<token>` is vetoed by the `hashchange` listener,
so the externally visible hash still contains `state=<token>` afterwards
(assuming, as the lock invariant guarantees, that the old hash contained
it). -/
theorem C4_lock_veto (u : UrlConfigTransmitter) (tok oldHash newHash : String)
    (hlock : u.stateValue = some tok)
    (hold : includes oldHash ("state=" ++ tok) = true) :
    includes (applyHashChange u oldHash newHash) ("state=" ++ tok) = true := by
  unfold applyHashChange stateMarker
  rw [hlock]
  by_cases h : includes newHash ("state=" ++ tok) = true
  · simp [h]
  · simp only [Bool.not_eq_true] at h
    simpa [h] using hold

/-- Witness for `C4_lock_veto`: an attempt to navigate from
`#state=abc123` to `#x=1` is vetoed and the visible hash keeps the
token. -/
theorem C4_lock_veto_witness :
    ((mkUrlConfigTransmitter "p#state=abc123").stateValue = some "abc123" ∧
     includes "#state=abc123" ("state=" ++ "abc123") = true) ∧
    includes
      (applyHashChange (mkUrlConfigTransmitter "p#state=abc123")
        "#state=abc123" "#x=1")
      ("state=" ++ "abc123") = true :=
  ⟨⟨by decide, by decide⟩,
   C4_lock_veto (mkUrlConfigTransmitter "p#state=abc123") "abc123"
     "#state=abc123" "#x=1" (by decide) (by decide)⟩

/-- C9: on the attribute variant with a resolved host element, `update`
merges the change into the explicit config (not over `get()`), serializes
the new state, and writes the text to the watched attribute exactly when
it differs, as text, from the attribute's currently stored value; when it
is equal no attribute write happens. -/
theorem C9_attr_update (h : HtmlAttributeConfigTransmitter) (Δ : Config)
    (hres : h.resolved = true) :
    (HtmlAttributeConfigTransmitter.update h (.conf Δ)).1.base.config =
      merge h.base.config Δ ∧
    (HtmlAttributeConfigTransmitter.update h (.conf Δ)).2 =
      (if h.attrVal = some (ConfigTransmitter.serialize
          { h.base with config := merge h.base.config Δ }) then []
       else [.attrWrite (ConfigTransmitter.serialize
          { h.base with config := merge h.base.config Δ })]) := by
  obtain ⟨base, res, av⟩ := h
  cases res with
  | false => exact Bool.noConfusion hres
  | true =>
    by_cases hav : av = some (ConfigTransmitter.serialize
        { base with config := merge base.config Δ })
    · simp [HtmlAttributeConfigTransmitter.update, hav, inputConfig]
    · simp [HtmlAttributeConfigTransmitter.update, hav, inputConfig]

/-- Witness for `C9_attr_update`: with the attribute storing `a=1` and an
update whose serialization is again `a=1`, no attribute write happens. -/
theorem C9_attr_update_witness :
    (mkHtmlAttributeConfigTransmitter true (some "a=1")).resolved = true ∧
    ((HtmlAttributeConfigTransmitter.update
        (mkHtmlAttributeConfigTransmitter true (some "a=1"))
        (.conf [("a", Value.scalar (.str "1"))])).1.base.config =
      merge (mkHtmlAttributeConfigTransmitter true (some "a=1")).base.config
        [("a", Value.scalar (.str "1"))] ∧
     (HtmlAttributeConfigTransmitter.update
        (mkHtmlAttributeConfigTransmitter true (some "a=1"))
        (.conf [("a", Value.scalar (.str "1"))])).2 =
      (if (mkHtmlAttributeConfigTransmitter true (some "a=1")).attrVal =
          some (ConfigTransmitter.serialize
            { (mkHtmlAttributeConfigTransmitter true (some "a=1")).base with
              config := merge
                (mkHtmlAttributeConfigTransmitter true (some "a=1")).base.config
                [("a", Value.scalar (.str "1"))] }) then []
       else [.attrWrite (ConfigTransmitter.serialize
          { (mkHtmlAttributeConfigTransmitter true (some "a=1")).base with
            config := merge
              (mkHtmlAttributeConfigTransmitter true (some "a=1")).base.config
              [("a", Value.scalar (.str "1"))] })])) :=
  ⟨rfl,
   C9_attr_update (mkHtmlAttributeConfigTransmitter true (some "a=1"))
     [("a", Value.scalar (.str "1"))] rfl⟩

theorem idx_nonDefaultsAux (dc c : Config) (L : List String) (acc : Config)
    (k : String) :
    idx (nonDefaultsAux dc c L acc) k =
      if k ∈ L ∧ isEqualV (idx dc k) (idx c k) = false then idx c k
      else idx acc k := by
  induction L generalizing acc with
  | nil => simp [nonDefaultsAux]
  | cons k₀ rest ih =>
    by_cases he : isEqualV (idx dc k₀) (idx c k₀) = true
    · simp only [nonDefaultsAux, if_pos he]
      rw [ih acc]
      by_cases hk : k = k₀
      · subst hk
        simp [he]
      · simp [hk, List.mem_cons]
    · simp only [nonDefaultsAux, if_neg he]
      rw [ih (setKey acc k₀ (idx c k₀))]
      have he' : isEqualV (idx dc k₀) (idx c k₀) = false := by
        simpa using he
      by_cases hk : k = k₀
      · subst hk
        simp [he', idx_setKey]
      · simp [hk, idx_setKey, List.mem_cons]

theorem hasKey_nonDefaultsAux (dc c : Config) (L : List String) (acc : Config)
    (k : String) :
    hasKey (nonDefaultsAux dc c L acc) k =
      ((decide (k ∈ L) && !(isEqualV (idx dc k) (idx c k))) || hasKey acc k) := by
  induction L generalizing acc with
  | nil => simp [nonDefaultsAux]
  | cons k₀ rest ih =>
    by_cases he : isEqualV (idx dc k₀) (idx c k₀) = true
    · simp only [nonDefaultsAux, if_pos he]
      rw [ih acc]
      by_cases hk : k = k₀
      · subst hk
        simp [he]
      · simp [hk, List.mem_cons]
    · simp only [nonDefaultsAux, if_neg he]
      rw [ih (setKey acc k₀ (idx c k₀))]
      have he' : isEqualV (idx dc k₀) (idx c k₀) = false := by
        simpa using he
      by_cases hk : k = k₀
      · subst hk
        simp [he', hasKey_setKey]
      · simp [hk, hasKey_setKey, List.mem_cons]

theorem nodup_keysOf_nonDefaultsAux (dc c : Config) (L : List String)
    (acc : Config) (h : (keysOf acc).Nodup) :
    (keysOf (nonDefaultsAux dc c L acc)).Nodup := by
  induction L generalizing acc with
  | nil => exact h
  | cons k₀ rest ih =>
    by_cases he : isEqualV (idx dc k₀) (idx c k₀) = true
    · simp only [nonDefaultsAux, if_pos he]
      exact ih acc h
    · simp only [nonDefaultsAux, if_neg he]
      exact ih (setKey acc k₀ (idx c k₀)) (nodup_keysOf_setKey acc k₀ _ h)

theorem hasKey_filter (c : Config) (p : String × Value → Bool) (k : String)
    (h : (keysOf c).Nodup) :
    hasKey (c.filter p) k = (hasKey c k && p (k, idx c k)) := by
  induction c with
  | nil => simp [hasKey]
  | cons kv rest ih =>
    obtain ⟨k₀, v₀⟩ := kv
    simp only [keysOf, List.map_cons, List.nodup_cons] at h
    obtain ⟨hk₀, hrest⟩ := h
    have hout : hasKey rest k₀ = false := by
      by_contra hc
      exact hk₀ ((hasKey_iff_mem_keysOf rest k₀).mp (by simpa using hc))
    by_cases hp : p (k₀, v₀) = true
    · by_cases hk : k₀ = k
      · subst hk
        simp [List.filter_cons, hp, hasKey, idx]
      · simp [List.filter_cons, hp, hasKey, idx, hk, ih hrest]
    · have hp' : p (k₀, v₀) = false := by simpa using hp
      by_cases hk : k₀ = k
      · subst hk
        simp [List.filter_cons, hp', hasKey, idx, ih hrest, hout]
      · simp [List.filter_cons, hp', hasKey, idx, hk, ih hrest]

/-- C5 fails as stated: with defaults `{units:"kg", year:2020}` and
explicit config `{year:2020, scope:"full"}`, the key `units` lies in the
key union and its explicit value (missing, i.e. `undefined`) is not equal
to its default `"kg"` under the `isEqual` rule, so the claim predicts it
is encoded — but `serialize()` returns exactly `"scope=full"`, which does
not mention `units` (the codec cannot encode an unset value). -/
theorem C5_counterexample :
    ((hasKey [("units", Value.scalar (.str "kg")),
        ("year", Value.scalar (.num 2020))] "units" ||
      hasKey [("year", Value.scalar (.num 2020)),
        ("scope", Value.scalar (.str "full"))] "units") = true ∧
     isEqualV
       (idx [("units", Value.scalar (.str "kg")),
         ("year", Value.scalar (.num 2020))] "units")
       (idx [("year", Value.scalar (.num 2020)),
         ("scope", Value.scalar (.str "full"))] "units") = false) ∧
    ConfigTransmitter.serialize
      ⟨[], [("year", Value.scalar (.num 2020)),
            ("scope", Value.scalar (.str "full"))],
       some [("units", Value.scalar (.str "kg")),
             ("year", Value.scalar (.num 2020))]⟩ = "scope=full" ∧
    includes
      (ConfigTransmitter.serialize
        ⟨[], [("year", Value.scalar (.num 2020)),
              ("scope", Value.scalar (.str "full"))],
         some [("units", Value.scalar (.str "kg")),
               ("year", Value.scalar (.num 2020))]⟩) "units" = false := by
  refine ⟨⟨?_, ?_⟩, ?_, ?_⟩ <;> decide

/-- C5 amended: with a default config `D` set, `serialize()` hands the
codec the mapping of all union keys whose explicit value is not `isEqual`
to the default value (with the scalar/array rule), valued by the explicit
config; the keys the codec then actually encodes are exactly those whose
explicit value is, in addition, set (not none) — keys judged equal, and
keys absent from the explicit config, are omitted.  On the spec's example
only `{scope:"full"}` is encoded. -/
theorem C5_amended (D C : Config) (ws : List Nat) :
    ConfigTransmitter.serialize ⟨ws, C, some D⟩ =
      serializeConfig (serializeNonDefaults D C) ∧
    (∀ k, hasKey ((serializeNonDefaults D C).filter
        (fun kv => !(isNone kv.2))) k =
      ((hasKey D k || hasKey C k) && !(isEqualV (idx D k) (idx C k)) &&
        !(isNone (idx C k)))) ∧
    (∀ k, hasKey (serializeNonDefaults D C) k = true →
      idx (serializeNonDefaults D C) k = idx C k) ∧
    ConfigTransmitter.serialize
      ⟨[], [("year", Value.scalar (.num 2020)),
            ("scope", Value.scalar (.str "full"))],
       some [("units", Value.scalar (.str "kg")),
             ("year", Value.scalar (.num 2020))]⟩ = "scope=full" := by
  have hnd : (keysOf (serializeNonDefaults D C)).Nodup :=
    nodup_keysOf_nonDefaultsAux D C (keysOf D ++ keysOf C) [] (by simp [keysOf])
  have hmem : ∀ k, decide (k ∈ keysOf D ++ keysOf C) =
      (hasKey D k || hasKey C k) := by
    intro k
    by_cases hm : k ∈ keysOf D ++ keysOf C
    · have : (hasKey D k || hasKey C k) = true := by
        rcases List.mem_append.mp hm with h | h
        · simp [(hasKey_iff_mem_keysOf D k).mpr h]
        · simp [(hasKey_iff_mem_keysOf C k).mpr h]
      simp [hm, this]
    · have hD : hasKey D k = false := by
        by_contra hc
        exact hm (List.mem_append_left _
          ((hasKey_iff_mem_keysOf D k).mp (by simpa using hc)))
      have hC : hasKey C k = false := by
        by_contra hc
        exact hm (List.mem_append_right _
          ((hasKey_iff_mem_keysOf C k).mp (by simpa using hc)))
      simp [hm, hD, hC]
  refine ⟨rfl, fun k => ?_, fun k hk => ?_, by decide⟩
  · rw [hasKey_filter _ _ _ hnd]
    show (hasKey (nonDefaultsAux D C (keysOf D ++ keysOf C) []) k &&
      !(isNone (idx (nonDefaultsAux D C (keysOf D ++ keysOf C) []) k))) = _
    rw [hasKey_nonDefaultsAux, idx_nonDefaultsAux]
    by_cases hm : k ∈ keysOf D ++ keysOf C
    · by_cases he : isEqualV (idx D k) (idx C k) = true
      · simp [hm, he, ← hmem k, isNone, hasKey, idx]
      · have he' : isEqualV (idx D k) (idx C k) = false := by simpa using he
        simp [hm, he', ← hmem k, hasKey, idx]
    · simp [hm, ← hmem k, isNone, hasKey, idx]
  · simp only [serializeNonDefaults] at hk ⊢
    rw [hasKey_nonDefaultsAux] at hk
    simp only [hasKey, Bool.or_false, Bool.and_eq_true, decide_eq_true_eq,
      Bool.not_eq_true'] at hk
    rw [idx_nonDefaultsAux]
    simp [hk.1, hk.2]

theorem stage_hasKey_mono (delta : Config) (cur : Config) (flag : Bool)
    (k : String) (h : hasKey cur k = true) :
    hasKey (stage delta cur flag).1 k = true := by
  induction delta generalizing cur flag with
  | nil => exact h
  | cons kv rest ih =>
    obtain ⟨k₀, v₀⟩ := kv
    by_cases h1 : isNone v₀ = true
    · simp only [stage, if_pos h1]
      exact ih cur flag h
    · by_cases h2 : isNone (idx cur k₀) = true
      · simp only [stage, if_neg h1, if_pos h2]
        refine ih (setKey cur k₀ v₀) true ?_
        rw [hasKey_setKey]
        by_cases hk : k = k₀ <;> simp [hk, h]
      · simp only [stage, if_neg h1, if_neg h2]
        exact ih cur flag h

theorem stage_nodup (delta : Config) (cur : Config) (flag : Bool)
    (h : (keysOf cur).Nodup) : (keysOf (stage delta cur flag).1).Nodup := by
  induction delta generalizing cur flag with
  | nil => exact h
  | cons kv rest ih =>
    obtain ⟨k₀, v₀⟩ := kv
    by_cases h1 : isNone v₀ = true
    · simp only [stage, if_pos h1]
      exact ih cur flag h
    · by_cases h2 : isNone (idx cur k₀) = true
      · simp only [stage, if_neg h1, if_pos h2]
        exact ih (setKey cur k₀ v₀) true (nodup_keysOf_setKey cur k₀ v₀ h)
      · simp only [stage, if_neg h1, if_neg h2]
        exact ih cur flag h

theorem stage_idx (delta : Config) (cur : Config) (flag : Bool) (k : String)
    (hnd : (keysOf delta).Nodup) :
    idx (stage delta cur flag).1 k =
      if hasKey delta k && !(isNone (idx delta k)) && isNone (idx cur k)
      then idx delta k else idx cur k := by
  induction delta generalizing cur flag with
  | nil => simp [stage, hasKey]
  | cons kv rest ih =>
    obtain ⟨k₀, v₀⟩ := kv
    simp only [keysOf, List.map_cons, List.nodup_cons] at hnd
    obtain ⟨hk₀, hrest⟩ := hnd
    have hout : hasKey rest k₀ = false := by
      by_contra hc
      exact hk₀ ((hasKey_iff_mem_keysOf rest k₀).mp (by simpa using hc))
    by_cases h1 : isNone v₀ = true
    · simp only [stage, if_pos h1]
      rw [ih cur flag hrest]
      by_cases hk : k = k₀
      · subst hk
        simp [hasKey, idx, h1, hout]
      · simp [hasKey, idx, Ne.symm hk]
    · by_cases h2 : isNone (idx cur k₀) = true
      · simp only [stage, if_neg h1, if_pos h2]
        rw [ih (setKey cur k₀ v₀) true hrest]
        by_cases hk : k = k₀
        · subst hk
          have h1' : isNone v₀ = false := by simpa using h1
          simp [hasKey, idx, h1', h2, hout, idx_setKey]
        · simp [hasKey, idx, Ne.symm hk, idx_setKey, hk]
      · simp only [stage, if_neg h1, if_neg h2]
        rw [ih cur flag hrest]
        by_cases hk : k = k₀
        · subst hk
          have h2' : isNone (idx cur k) = false := by simpa using h2
          simp [hasKey, idx, h2', hout]
        · simp [hasKey, idx, Ne.symm hk]

theorem stage_flag (delta : Config) (cur : Config) (flag : Bool) :
    (stage delta cur flag).2 =
      (flag || delta.any (fun kv => !(isNone kv.2) && isNone (idx cur kv.1))) := by
  induction delta generalizing cur flag with
  | nil => simp [stage]
  | cons kv rest ih =>
    obtain ⟨k₀, v₀⟩ := kv
    by_cases h1 : isNone v₀ = true
    · simp only [stage, if_pos h1]
      rw [ih cur flag]
      simp [h1]
    · by_cases h2 : isNone (idx cur k₀) = true
      · simp only [stage, if_neg h1, if_pos h2]
        rw [ih (setKey cur k₀ v₀) true]
        have h1' : isNone v₀ = false := by simpa using h1
        simp [h1', h2]
      · simp only [stage, if_neg h1, if_neg h2]
        rw [ih cur flag]
        have h2' : isNone (idx cur k₀) = false := by simpa using h2
        simp [h2']

/-- C6: `updateIfAbsent` with a non-empty change stages exactly the keys
whose change value is set (not none) and whose current merged value is
none.  When no key qualifies nothing happens at all; when at least one
does, exactly one `update` fires, storing and fanning out the current
snapshot with all staged keys applied together. -/
theorem C6_updateIfAbsent (t : ConfigTransmitter) (delta : Config)
    (hnd : (keysOf delta).Nodup)
    (hg : (keysOf (ConfigTransmitter.get t)).Nodup) :
    (delta.any (fun kv => !(isNone kv.2) &&
        isNone (idx (ConfigTransmitter.get t) kv.1)) = false →
      ConfigTransmitter.updateIfAbsent t (.conf delta) = (t, [])) ∧
    (delta.any (fun kv => !(isNone kv.2) &&
        isNone (idx (ConfigTransmitter.get t) kv.1)) = true →
      (ConfigTransmitter.updateIfAbsent t (.conf delta)).2 =
        t.widgets.map (fun w => .widgetUpdate w
          (ConfigTransmitter.updateIfAbsent t (.conf delta)).1.config) ∧
      (∀ k, idx (ConfigTransmitter.updateIfAbsent t (.conf delta)).1.config k =
        if hasKey delta k && !(isNone (idx delta k)) &&
            isNone (idx (ConfigTransmitter.get t) k)
        then idx delta k else idx (ConfigTransmitter.get t) k)) := by
  have hflag := stage_flag delta (ConfigTransmitter.get t) false
  simp only [Bool.false_or] at hflag
  constructor
  · intro hz
    simp [ConfigTransmitter.updateIfAbsent, inputIsEmpty, inputConfig,
      hflag, hz]
  · intro ha
    have hbranch : ConfigTransmitter.updateIfAbsent t (.conf delta) =
        ConfigTransmitter.update t
          (.conf (stage delta (ConfigTransmitter.get t) false).1) := by
      simp [ConfigTransmitter.updateIfAbsent, inputIsEmpty, inputConfig,
        hflag, ha]
    rw [hbranch]
    refine ⟨rfl, fun k => ?_⟩
    have hnodupcur : (keysOf (stage delta (ConfigTransmitter.get t) false).1).Nodup :=
      stage_nodup delta (ConfigTransmitter.get t) false hg
    show idx (merge (ConfigTransmitter.get t)
        (stage delta (ConfigTransmitter.get t) false).1) k = _
    rw [idx_merge _ _ _ hnodupcur]
    by_cases hk' : hasKey (stage delta (ConfigTransmitter.get t) false).1 k = true
    · rw [if_pos hk', stage_idx delta (ConfigTransmitter.get t) false k hnd]
    · rw [if_neg hk']
      have hundef : idx (stage delta (ConfigTransmitter.get t) false).1 k =
          .undef := idx_of_not_hasKey _ _ (by simpa using hk')
      by_cases hcond : (hasKey delta k && !(isNone (idx delta k)) &&
          isNone (idx (ConfigTransmitter.get t) k)) = true
      · exfalso
        have hchar := stage_idx delta (ConfigTransmitter.get t) false k hnd
        rw [if_pos hcond, hundef] at hchar
        simp only [Bool.and_eq_true] at hcond
        have hset := hcond.1.2
        rw [← hchar] at hset
        simp [isNone] at hset
      · have hcond' := hcond
        simp only [Bool.not_eq_true] at hcond'
        simp [hcond']

/-- Witness for `C6_updateIfAbsent`: key `a` is already set and key `c`
carries a none value, so only key `b` is staged; one fan-out delivers the
snapshot with `b` filled in. -/
theorem C6_updateIfAbsent_witness :
    ((keysOf [("a", Value.scalar (.str "y")), ("b", Value.scalar (.str "z")),
        ("c", Value.vnull)]).Nodup ∧
     (keysOf (ConfigTransmitter.get
        ⟨[3], [("a", Value.scalar (.str "x"))], none⟩)).Nodup) ∧
    (([("a", Value.scalar (.str "y")), ("b", Value.scalar (.str "z")),
        ("c", Value.vnull)].any (fun kv => !(isNone kv.2) &&
        isNone (idx (ConfigTransmitter.get
          ⟨[3], [("a", Value.scalar (.str "x"))], none⟩) kv.1)) = false →
      ConfigTransmitter.updateIfAbsent
        ⟨[3], [("a", Value.scalar (.str "x"))], none⟩
        (.conf [("a", Value.scalar (.str "y")), ("b", Value.scalar (.str "z")),
          ("c", Value.vnull)]) =
        (⟨[3], [("a", Value.scalar (.str "x"))], none⟩, [])) ∧
     ([("a", Value.scalar (.str "y")), ("b", Value.scalar (.str "z")),
        ("c", Value.vnull)].any (fun kv => !(isNone kv.2) &&
        isNone (idx (ConfigTransmitter.get
          ⟨[3], [("a", Value.scalar (.str "x"))], none⟩) kv.1)) = true →
      (ConfigTransmitter.updateIfAbsent
        ⟨[3], [("a", Value.scalar (.str "x"))], none⟩
        (.conf [("a", Value.scalar (.str "y")), ("b", Value.scalar (.str "z")),
          ("c", Value.vnull)])).2 =
        [3].map (fun w => .widgetUpdate w
          (ConfigTransmitter.updateIfAbsent
            ⟨[3], [("a", Value.scalar (.str "x"))], none⟩
            (.conf [("a", Value.scalar (.str "y")),
              ("b", Value.scalar (.str "z")), ("c", Value.vnull)])).1.config) ∧
      (∀ k, idx (ConfigTransmitter.updateIfAbsent
          ⟨[3], [("a", Value.scalar (.str "x"))], none⟩
          (.conf [("a", Value.scalar (.str "y")),
            ("b", Value.scalar (.str "z")), ("c", Value.vnull)])).1.config k =
        if hasKey [("a", Value.scalar (.str "y")), ("b", Value.scalar (.str "z")),
            ("c", Value.vnull)] k &&
          !(isNone (idx [("a", Value.scalar (.str "y")),
            ("b", Value.scalar (.str "z")), ("c", Value.vnull)] k)) &&
          isNone (idx (ConfigTransmitter.get
            ⟨[3], [("a", Value.scalar (.str "x"))], none⟩) k)
        then idx [("a", Value.scalar (.str "y")), ("b", Value.scalar (.str "z")),
          ("c", Value.vnull)] k
        else idx (ConfigTransmitter.get
          ⟨[3], [("a", Value.scalar (.str "x"))], none⟩) k))) :=
  ⟨⟨by decide, by decide⟩,
   C6_updateIfAbsent ⟨[3], [("a", Value.scalar (.str "x"))], none⟩
     [("a", Value.scalar (.str "y")), ("b", Value.scalar (.str "z")),
      ("c", Value.vnull)] (by decide) (by decide)⟩
